import Mathlib

/-!
Verification of the emoji generation pipeline (`build/emoji/emoji_gen.mjs`).

The script reads the emoji dataset, filters out excluded emoji, expands
skin-tone variants, augments aliases with a compatibility table, injects a
custom record, sorts, indexes, and serializes the results.  The definitions
below are a shallow embedding of that pipeline: JavaScript objects with
possibly-absent fields become structures with `Option` fields, in-place
mutation of records becomes `List.map` (each record object occurs exactly
once in the worked list), and `Array.prototype.sort` (a stable sort) is
modelled by a stable insertion sort over the script's comparator.
-/

namespace EmojiGen

/-- A value of the dataset's `skin_variations` table: the fields present on
such an object in `emoji-datasource` (it has no `sort_order`, no
`short_names` and no `category`; these are overridden by `genSkinVariations`
anyway, except `sort_order`, which stays absent). -/
structure SkinVar where
  unified : String
  image : String
  sheet_x : Option Nat := none
  sheet_y : Option Nat := none
  non_qualified : Option String := none
  added_in : Option String := none
  has_img_apple : Option Bool := none
  has_img_google : Option Bool := none
  has_img_twitter : Option Bool := none
  has_img_facebook : Option Bool := none
deriving DecidableEq

/-- An emoji record as manipulated by the script.  Fields that may be absent
on the JavaScript object (`undefined`) are `Option`; `fileName` is absent on
every input record and is only set by the indexing loop. -/
structure Emoji where
  name : String
  unified : String
  short_name : String
  short_names : List String
  category : String
  image : String
  sort_order : Option Int := none
  sheet_x : Option Nat := none
  sheet_y : Option Nat := none
  skin_variations : Option (List (String × SkinVar)) := none
  skins : Option (List String) := none
  fileName : Option String := none
  non_qualified : Option String := none
  docomo : Option String := none
  au : Option String := none
  softbank : Option String := none
  google : Option String := none
  added_in : Option String := none
  has_img_apple : Option Bool := none
  has_img_google : Option Bool := none
  has_img_twitter : Option Bool := none
  has_img_facebook : Option Bool := none
  source_index : Option Nat := none
  subcategory : Option String := none
deriving DecidableEq

/-- `const EMOJI_SIZE = 64`. -/
def EMOJI_SIZE : Nat := 64

/-- `const EMOJI_SIZE_PADDED = EMOJI_SIZE + 2` (1px per side). -/
def EMOJI_SIZE_PADDED : Nat := EMOJI_SIZE + 2

/-- The `skinCodes` lookup object; `none` models an absent key
(`skinCodes[code]` evaluating to `undefined`). -/
def skinCodes : String → Option String
  | "1F3FB" => some "light_skin_tone"
  | "1F3FC" => some "medium_light_skin_tone"
  | "1F3FD" => some "medium_skin_tone"
  | "1F3FE" => some "medium_dark_skin_tone"
  | "1F3FF" => some "dark_skin_tone"
  | "default" => some "default"
  | _ => none

/-- The `skinNames` lookup object. -/
def skinNames : String → Option String
  | "1F3FB" => some "LIGHT SKIN TONE"
  | "1F3FC" => some "MEDIUM LIGHT SKIN TONE"
  | "1F3FD" => some "MEDIUM SKIN TONE"
  | "1F3FE" => some "MEDIUM DARK SKIN TONE"
  | "1F3FF" => some "DARK SKIN TONE"
  | _ => none

/-- `Array.prototype.join(sep)`: an element that is `undefined` contributes
the empty string. -/
def jsJoin (sep : String) (l : List (Option String)) : String :=
  String.intercalate sep (l.map (fun o => o.getD ""))

/-- `String.prototype.split(c)` for a one-character separator, on the
character list.  The result is always nonempty. -/
def charSplit (c : Char) : List Char → List (List Char)
  | [] => [[]]
  | x :: xs =>
    if x = c then [] :: charSplit c xs
    else
      match charSplit c xs with
      | [] => [[x]]
      | h :: t => (x :: h) :: t

/-- `String.prototype.split(c)` for a one-character separator. -/
def jsSplit (c : Char) (s : String) : List String :=
  (charSplit c s.toList).map String.mk

/-- `filename(emoji)`: `emoji.image.split('.')[0]`. -/
def filename (emoji : Emoji) : String :=
  String.mk ((charSplit '.' emoji.image.toList).headD [])

/-- `String.prototype.replace(pat, rep)` with a string pattern: replaces the
first occurrence only. -/
def replaceFirst (pat rep : List Char) : List Char → List Char
  | [] => []
  | x :: xs =>
    if pat.isPrefixOf (x :: xs) then rep ++ (x :: xs).drop pat.length
    else x :: replaceFirst pat rep xs

/-- `convertCategory(category)`: `category.toLowerCase().replace(' & ', '-')`
(ASCII lowercasing suffices for the dataset's category strings). -/
def convertCategory (category : String) : String :=
  String.mk (replaceFirst " & ".toList "-".toList (category.toList.map Char.toLower))

/-- `genSkinVariations(emoji)`: one derived record per key of the
`skin_variations` table, in key order. -/
def genSkinVariations (emoji : Emoji) : List Emoji :=
  match emoji.skin_variations with
  | none => []
  | some svs =>
    svs.map (fun kv =>
      let skins := jsSplit '-' kv.1
      let skinShortName := jsJoin "_" (skins.map skinCodes)
      let skinName := jsJoin ", " (skins.map skinNames)
      let d := kv.2
      { name := emoji.name ++ ": " ++ skinName
        unified := d.unified
        short_name := emoji.short_name ++ "_" ++ skinShortName
        short_names := emoji.short_names.map (fun aliasName => aliasName ++ "_" ++ skinShortName)
        category := emoji.category
        image := d.image
        sheet_x := d.sheet_x
        sheet_y := d.sheet_y
        skins := some skins
        non_qualified := d.non_qualified
        added_in := d.added_in
        has_img_apple := d.has_img_apple
        has_img_google := d.has_img_google
        has_img_twitter := d.has_img_twitter
        has_img_facebook := d.has_img_facebook })

/-- `trimPropertiesFromEmoji(emoji)`: deletes the vendor-specific fields. -/
def trimPropertiesFromEmoji (emoji : Emoji) : Emoji :=
  { emoji with
    non_qualified := none
    docomo := none
    au := none
    softbank := none
    google := none
    sheet_x := none
    sheet_y := none
    added_in := none
    has_img_apple := none
    has_img_google := none
    has_img_twitter := none
    has_img_facebook := none
    source_index := none
    sort_order := none
    subcategory := none }

/-- The `jsonData.filter` step removing emoji whose `short_names` contain an
excluded short name. -/
def filteredEmojiJson (excludedEmoji : List String) (jsonData : List Emoji) : List Emoji :=
  jsonData.filter (fun element => ! excludedEmoji.any (fun e => element.short_names.contains e))

/-- `fullEmoji` after the skin-variation loop: the filtered records followed
by all their skin variations, in order. -/
def fullEmojiExpanded (excludedEmoji : List String) (jsonData : List Emoji) : List Emoji :=
  let f := filteredEmojiJson excludedEmoji jsonData
  f ++ f.flatMap genSkinVariations

/-- Key lookup in the `additional_shortnames.json` object, modelled as an
association list (JSON object keys are unique). -/
def jsLookup (tbl : List (String × List String)) (k : String) : Option (List String) :=
  (tbl.find? (fun kv => kv.1 == k)).map (fun kv => kv.2)

/-- One step of the alias-augmentation loop: if `emoji.short_name` is a key
of the table, push the extra aliases onto `short_names`. -/
def augmentShortnames (tbl : List (String × List String)) (emoji : Emoji) : Emoji :=
  match jsLookup tbl emoji.short_name with
  | some extra => { emoji with short_names := emoji.short_names ++ extra }
  | none => emoji

/-- `fullEmoji` after the alias-augmentation `forEach`. -/
def fullEmojiAugmented (excludedEmoji : List String) (jsonData : List Emoji)
    (tbl : List (String × List String)) : List Emoji :=
  (fullEmojiExpanded excludedEmoji jsonData).map (augmentShortnames tbl)

/-- The built-in custom emoji pushed after augmentation: it has no
`sort_order` (`undefined`) and its `unified` is the empty string. -/
def mattermostEmoji : Emoji :=
  { name := "Mattermost"
    unified := ""
    image := "mattermost.png"
    short_name := "mattermost"
    short_names := ["mattermost"]
    category := "custom" }

/-- `fullEmoji` just before the sort. -/
def fullEmojiWithCustom (excludedEmoji : List String) (jsonData : List Emoji)
    (tbl : List (String × List String)) : List Emoji :=
  fullEmojiAugmented excludedEmoji jsonData tbl ++ [mattermostEmoji]

/-- The sort comparator `(a, b) => a.sort_order - b.sort_order`.  When either
`sort_order` is `undefined` the subtraction yields `NaN`, and ECMAScript's
`SortCompare` treats a `NaN` comparator result as `+0`, so such a pair
compares as 0. -/
def jsCompare (a b : Emoji) : Int :=
  match a.sort_order, b.sort_order with
  | some x, some y => x - y
  | _, _ => 0

/-- Stable insertion used to model `Array.prototype.sort`: a later element
`x` is placed before the first element `y` with `c x y < 0`, hence after
every element it compares equal to (stability). -/
def jsSortInsert {α : Type} (c : α → α → Int) (x : α) : List α → List α
  | [] => [x]
  | y :: ys => if c x y < 0 then x :: y :: ys else y :: jsSortInsert c x ys

/-- `Array.prototype.sort(c)` modelled as a stable insertion sort. -/
def jsStableSort {α : Type} (c : α → α → Int) (l : List α) : List α :=
  l.foldl (fun acc x => jsSortInsert c x acc) []

/-- `fullEmoji` after `fullEmoji.sort(...)`. -/
def fullEmojiSorted (excludedEmoji : List String) (jsonData : List Emoji)
    (tbl : List (String × List String)) : List Emoji :=
  jsStableSort jsCompare (fullEmojiWithCustom excludedEmoji jsonData tbl)

/-- The per-record mutations of the indexing `forEach`: normalize the
category, move the original image filename into `fileName`, and truncate
`image` at its first dot. -/
def applyIndexMutations (emoji : Emoji) : Emoji :=
  { emoji with
    category := convertCategory emoji.category
    fileName := some emoji.image
    image := filename emoji }

/-- The record list as it stands after the indexing loop. -/
def finalEmojis (excludedEmoji : List String) (jsonData : List Emoji)
    (tbl : List (String × List String)) : List Emoji :=
  (fullEmojiSorted excludedEmoji jsonData tbl).map applyIndexMutations

/-- `emojiIndicesByAlias`: one `[alias, index]` pair per short name of each
record of the sorted list. -/
def emojiIndicesByAlias (excludedEmoji : List String) (jsonData : List Emoji)
    (tbl : List (String × List String)) : List (String × Nat) :=
  (fullEmojiSorted excludedEmoji jsonData tbl).enum.flatMap
    (fun ie => ie.2.short_names.map (fun aliasName => (aliasName, ie.1)))

/-- Wrap a string in double quotes, as the Go-table entry template does. -/
def quoteStr (s : String) : String := "\"" ++ s ++ "\""

/-- `emojiImagesByAlias`: the entry strings of the generated Go map. -/
def emojiImagesByAlias (excludedEmoji : List String) (jsonData : List Emoji)
    (tbl : List (String × List String)) : List String :=
  (fullEmojiSorted excludedEmoji jsonData tbl).flatMap
    (fun e => e.short_names.map (fun aliasName => quoteStr aliasName ++ ": " ++ quoteStr (filename e)))

/-- `Map.prototype.set` on an association list: overwrite an existing key,
otherwise append. -/
def mapSet (m : List (String × String)) (k v : String) : List (String × String) :=
  if m.any (fun p => p.1 == k) then m.map (fun p => if p.1 == k then (k, v) else p)
  else m ++ [(k, v)]

/-- `Map.prototype.get` on an association list. -/
def mapGet (m : List (String × String)) (k : String) : Option String :=
  (m.find? (fun p => p.1 == k)).map (fun p => p.2)

/-- Render `n * EMOJI_SIZE_PADDED` the way the template literal does; a
missing sheet coordinate is `undefined`, whose product is `NaN`. -/
def timesPadded : Option Nat → String
  | some n => toString (n * EMOJI_SIZE_PADDED)
  | none => "NaN"

/-- The background-position string
`-(sheet_x * EMOJI_SIZE_PADDED)px -(sheet_y * EMOJI_SIZE_PADDED)px;`. -/
def positionString (emoji : Emoji) : String :=
  "-" ++ timesPadded emoji.sheet_x ++ "px -" ++ timesPadded emoji.sheet_y ++ "px;"

/-- The `emojiFilePositions.set` calls of the indexing loop: every record
whose (normalized) category is not `custom` registers its position under its
truncated image filename. -/
def buildFilePositions (l : List Emoji) : List (String × String) :=
  l.foldl
    (fun m e =>
      if convertCategory e.category == "custom" then m
      else mapSet m (filename e) (positionString e))
    []

/-- `emojiFilePositions` for a full pipeline run. -/
def emojiFilePositions (excludedEmoji : List String) (jsonData : List Emoji)
    (tbl : List (String × List String)) : List (String × String) :=
  buildFilePositions (fullEmojiSorted excludedEmoji jsonData tbl)

/-- `categoryNames`: `'recent'`, the dataset's category keys without
`'Component'`, each normalized, then `'custom'`. -/
def categoryNames (categoryKeys : List String) : List String :=
  "recent" :: (categoryKeys.filter (fun item => item != "Component")).map convertCategory ++ ["custom"]

/-- `trimmedDownEmojis`: the final records with vendor fields stripped; this
is the content of the emitted `emoji.json`. -/
def trimmedDownEmojis (excludedEmoji : List String) (jsonData : List Emoji)
    (tbl : List (String × List String)) : List Emoji :=
  (finalEmojis excludedEmoji jsonData tbl).map trimPropertiesFromEmoji

/-- The body of the generated Go file's `SystemEmojis` literal. -/
def goMapString (excludedEmoji : List String) (jsonData : List Emoji)
    (tbl : List (String × List String)) : String :=
  "var SystemEmojis = map[string]string\x7b"
    ++ String.intercalate ", " (emojiImagesByAlias excludedEmoji jsonData tbl) ++ "\x7d"

/-- Strip one trailing carriage return from a line. -/
def stripCR (line : List Char) : List Char :=
  match line.getLast? with
  | some c => if c = '\x0d' then line.dropLast else line
  | none => line

/-- `split(/\r?\n/)`: split on newlines and strip a carriage return left at
the end of a line (the regex only matches a `\r` directly before a `\n`). -/
def jsSplitLines (s : String) : List String :=
  (charSplit '\n' s.toList).map (fun line => String.mk (stripCR line))

/-- Reading the exclusion list at startup.  The file system is a partial map
from paths to contents; `readFileSync` on a missing or unreadable path
throws, which is modelled as `Except.error` (the script has no handler, so
the run dies before any filtering or generation).  With no
`--excluded-emoji-file` argument the list stays empty. -/
def readExcludedEmoji (pathArg : Option String) (fs : String → Option String) :
    Except String (List String) :=
  match pathArg with
  | none => Except.ok []
  | some p =>
    match fs p with
    | none => Except.error ("ENOENT: no such file or directory, open " ++ p)
    | some content => Except.ok (jsSplitLines content)

/-- The generated artifacts the claims talk about. -/
structure PipelineOutputs where
  json : List Emoji
  aliasIndex : List (String × Nat)
  goMap : String
  positions : List (String × String)
  categories : List String
deriving DecidableEq

/-- The artifacts produced from a given exclusion list. -/
def mkOutputs (excludedEmoji : List String) (jsonData : List Emoji)
    (tbl : List (String × List String)) (categoryKeys : List String) : PipelineOutputs :=
  { json := trimmedDownEmojis excludedEmoji jsonData tbl
    aliasIndex := emojiIndicesByAlias excludedEmoji jsonData tbl
    goMap := goMapString excludedEmoji jsonData tbl
    positions := emojiFilePositions excludedEmoji jsonData tbl
    categories := categoryNames categoryKeys }

/-- The run as a whole: read the exclusion list, then generate.  A failing
read aborts before anything is generated. -/
def runPipeline (pathArg : Option String) (fs : String → Option String)
    (jsonData : List Emoji) (tbl : List (String × List String))
    (categoryKeys : List String) : Except String PipelineOutputs :=
  match readExcludedEmoji pathArg fs with
  | Except.error e => Except.error e
  | Except.ok excludedEmoji => Except.ok (mkOutputs excludedEmoji jsonData tbl categoryKeys)

/-! ### General lemmas about the stable-sort model -/

theorem jsSortInsert_mem {α : Type} (c : α → α → Int) (x : α) (l : List α) (y : α) :
    y ∈ jsSortInsert c x l ↔ y = x ∨ y ∈ l := by
  induction l with
  | nil => simp [jsSortInsert]
  | cons z zs ih =>
    simp only [jsSortInsert]
    split
    all_goals simp only [List.mem_cons, ih]
    all_goals tauto

theorem jsStableSort_mem {α : Type} (c : α → α → Int) (l : List α) (y : α) :
    y ∈ jsStableSort c l ↔ y ∈ l := by
  suffices h : ∀ acc : List α,
      y ∈ l.foldl (fun acc x => jsSortInsert c x acc) acc ↔ y ∈ acc ∨ y ∈ l by
    simpa [jsStableSort] using h []
  induction l with
  | nil => simp
  | cons z zs ih =>
    intro acc
    simp only [List.foldl_cons, ih, jsSortInsert_mem, List.mem_cons]
    tauto

theorem mem_filteredEmojiJson (excludedEmoji : List String) (jsonData : List Emoji) (b : Emoji) :
    b ∈ filteredEmojiJson excludedEmoji jsonData ↔
      b ∈ jsonData ∧ ∀ s ∈ excludedEmoji, s ∉ b.short_names := by
  simp [filteredEmojiJson, List.mem_filter, List.any_eq_true]

/-! ### C1: exclusion removes whole records and their skin variants -/

/-- C1: for every exclusion list, a dataset record whose short-name set
intersects the list is dropped by the filter, and every record of the final
sorted list (from which the trimmed JSON, the index maps and the Go table
are generated) is either the injected custom record or derives — directly or
as a skin variation — from a dataset record whose short names avoid the
exclusion list entirely. -/
theorem excluded_emoji_removed (excludedEmoji : List String) (jsonData : List Emoji)
    (tbl : List (String × List String)) :
    (∀ b ∈ jsonData, (∃ s ∈ excludedEmoji, s ∈ b.short_names) →
        b ∉ filteredEmojiJson excludedEmoji jsonData) ∧
    (∀ e ∈ fullEmojiSorted excludedEmoji jsonData tbl,
        e = mattermostEmoji ∨
          ∃ b ∈ jsonData, (∀ s ∈ excludedEmoji, s ∉ b.short_names) ∧
            (e = augmentShortnames tbl b ∨
              ∃ v ∈ genSkinVariations b, e = augmentShortnames tbl v)) := by
  constructor
  · intro b _ hs hmem
    rw [mem_filteredEmojiJson] at hmem
    obtain ⟨s, hsl, hsb⟩ := hs
    exact hmem.2 s hsl hsb
  · intro e he
    rw [fullEmojiSorted, jsStableSort_mem, fullEmojiWithCustom, List.mem_append] at he
    rcases he with he | he
    · right
      rw [fullEmojiAugmented, List.mem_map] at he
      obtain ⟨pre, hpre, heq⟩ := he
      rw [fullEmojiExpanded, List.mem_append] at hpre
      rcases hpre with hpre | hpre
      · rw [mem_filteredEmojiJson] at hpre
        exact ⟨pre, hpre.1, hpre.2, Or.inl heq.symm⟩
      · rw [List.mem_flatMap] at hpre
        obtain ⟨b, hb, hv⟩ := hpre
        rw [mem_filteredEmojiJson] at hb
        exact ⟨b, hb.1, hb.2, Or.inr ⟨pre, hv, heq.symm⟩⟩
    · left
      simpa using he

/-- A concrete dataset record used to instantiate the theorems. -/
def sampleA : Emoji :=
  { name := "GRINNING FACE"
    unified := "1F600"
    short_name := "grinning"
    short_names := ["grinning"]
    category := "Smileys & Emotion"
    image := "1f600.png"
    sort_order := some 2
    sheet_x := some 32
    sheet_y := some 46 }

/-- A second concrete dataset record, with a smaller sort key than
`sampleA`. -/
def sampleB : Emoji :=
  { name := "WAVING HAND SIGN"
    unified := "1F44B"
    short_name := "wave"
    short_names := ["wave", "hand"]
    category := "People & Body"
    image := "1f44b.png"
    sort_order := some 1
    sheet_x := some 3
    sheet_y := some 0 }

theorem excluded_emoji_removed_witness :
    sampleA ∉ filteredEmojiJson ["grinning"] [sampleA, sampleB] :=
  (excluded_emoji_removed ["grinning"] [sampleA, sampleB] []).1 sampleA (by decide)
    ⟨"grinning", by decide, by decide⟩

/-! ### C2: sorting and the missing sort key -/

/-- The numeric sort key of a record; a missing key reads as 0. -/
def sortOrderValue (e : Emoji) : Int := e.sort_order.getD 0

theorem jsSortInsert_ties {α : Type} (c : α → α → Int) (x : α) (l : List α)
    (h : ∀ y, c x y = 0) : jsSortInsert c x l = l ++ [x] := by
  induction l with
  | nil => rfl
  | cons z zs ih => simp [jsSortInsert, h z, ih]

theorem jsStableSort_append_tie {α : Type} (c : α → α → Int) (l : List α) (x : α)
    (h : ∀ y, c x y = 0) : jsStableSort c (l ++ [x]) = jsStableSort c l ++ [x] := by
  unfold jsStableSort
  rw [List.foldl_append]
  simp [jsSortInsert_ties c x _ h]

theorem jsCompare_keyed (a b : Emoji) (ha : a.sort_order.isSome) (hb : b.sort_order.isSome) :
    jsCompare a b < 0 ↔ sortOrderValue a < sortOrderValue b := by
  obtain ⟨x, hx⟩ := Option.isSome_iff_exists.mp ha
  obtain ⟨y, hy⟩ := Option.isSome_iff_exists.mp hb
  simp only [jsCompare, sortOrderValue, hx, hy, Option.getD_some]
  omega

theorem jsSortInsert_pairwise_keyed (x : Emoji) (l : List Emoji)
    (hx : x.sort_order.isSome) (hl : ∀ y ∈ l, y.sort_order.isSome)
    (hp : l.Pairwise (fun a b => sortOrderValue a ≤ sortOrderValue b)) :
    (jsSortInsert jsCompare x l).Pairwise (fun a b => sortOrderValue a ≤ sortOrderValue b) := by
  induction l with
  | nil => simp [jsSortInsert]
  | cons z zs ih =>
    have hz : z.sort_order.isSome := hl z (List.mem_cons_self z zs)
    have hzs : ∀ y ∈ zs, y.sort_order.isSome := fun y hy => hl y (List.mem_cons_of_mem z hy)
    rw [List.pairwise_cons] at hp
    simp only [jsSortInsert]
    split
    case isTrue hlt =>
      have hxz : sortOrderValue x < sortOrderValue z := (jsCompare_keyed x z hx hz).mp hlt
      rw [List.pairwise_cons]
      refine ⟨fun y hy => ?_, List.pairwise_cons.mpr hp⟩
      rcases List.mem_cons.mp hy with rfl | hy
      · exact le_of_lt hxz
      · exact le_trans (le_of_lt hxz) (hp.1 y hy)
    case isFalse hge =>
      have hzx : sortOrderValue z ≤ sortOrderValue x := by
        have := (jsCompare_keyed x z hx hz).not.mp hge
        omega
      rw [List.pairwise_cons]
      refine ⟨fun y hy => ?_, ih hzs hp.2⟩
      rcases (jsSortInsert_mem jsCompare x zs y).mp hy with rfl | hy
      · exact hzx
      · exact hp.1 y hy

theorem jsStableSort_pairwise_aux :
    ∀ (l acc : List Emoji), (∀ y ∈ l, y.sort_order.isSome) →
      (∀ y ∈ acc, y.sort_order.isSome) →
      acc.Pairwise (fun a b => sortOrderValue a ≤ sortOrderValue b) →
      (List.foldl (fun acc x => jsSortInsert jsCompare x acc) acc l).Pairwise
        (fun a b => sortOrderValue a ≤ sortOrderValue b)
  | [], acc, _, _, hp => hp
  | z :: zs, acc, hl, hacc, hp => by
    have hz : z.sort_order.isSome := hl z (List.mem_cons_self z zs)
    have hzs : ∀ y ∈ zs, y.sort_order.isSome := fun y hy => hl y (List.mem_cons_of_mem z hy)
    rw [List.foldl_cons]
    refine jsStableSort_pairwise_aux zs _ hzs (fun y hy => ?_)
      (jsSortInsert_pairwise_keyed z acc hz hacc hp)
    rcases (jsSortInsert_mem jsCompare z acc y).mp hy with rfl | hy
    · exact hz
    · exact hacc y hy

theorem jsStableSort_pairwise (l : List Emoji) (hl : ∀ y ∈ l, y.sort_order.isSome) :
    (jsStableSort jsCompare l).Pairwise (fun a b => sortOrderValue a ≤ sortOrderValue b) :=
  jsStableSort_pairwise_aux l [] hl (by simp) (by simp)

theorem jsCompare_mattermost (y : Emoji) : jsCompare mattermostEmoji y = 0 := by
  cases h : y.sort_order
  all_goals simp [jsCompare, mattermostEmoji, h]

/-- C2: sorting uses the comparator `a.sort_order - b.sort_order`; when a
sort key is missing the subtraction is `NaN`, which `SortCompare` turns into
`+0`, so such a record compares as 0 against everything.  Consequently the
custom record (whose key is undefined), appended last before the stable
sort, stays at the very end, and when every other record carries a sort key
the rest of the list is sorted ascending by that key. -/
theorem sort_missing_key_behavior (excludedEmoji : List String) (jsonData : List Emoji)
    (tbl : List (String × List String))
    (hkeys : ∀ e ∈ fullEmojiAugmented excludedEmoji jsonData tbl, e.sort_order.isSome) :
    (∀ a b : Emoji, a.sort_order = none → jsCompare a b = 0 ∧ jsCompare b a = 0) ∧
    fullEmojiSorted excludedEmoji jsonData tbl
      = jsStableSort jsCompare (fullEmojiAugmented excludedEmoji jsonData tbl)
          ++ [mattermostEmoji] ∧
    (jsStableSort jsCompare (fullEmojiAugmented excludedEmoji jsonData tbl)).Pairwise
      (fun a b => sortOrderValue a ≤ sortOrderValue b) := by
  refine ⟨fun a b ha => ?_, ?_, jsStableSort_pairwise _ hkeys⟩
  · cases hb : b.sort_order
    all_goals simp [jsCompare, ha, hb]
  · rw [fullEmojiSorted, fullEmojiWithCustom]
    exact jsStableSort_append_tie jsCompare _ mattermostEmoji jsCompare_mattermost

theorem sort_missing_key_behavior_witness :
    fullEmojiSorted [] [sampleA, sampleB] []
      = jsStableSort jsCompare (fullEmojiAugmented [] [sampleA, sampleB] [])
          ++ [mattermostEmoji] :=
  (sort_missing_key_behavior [] [sampleA, sampleB] [] (by decide)).2.1

/-! ### C3: skin variation expansion -/

/-- C3: a base record carrying a `skin_variations` table with `k` keys
produces exactly `k` derived records, and the record for the `i`-th key has
the documented short name, alias list, display name and copied category. -/
theorem skin_expansion_complete (emoji : Emoji) (svs : List (String × SkinVar))
    (h : emoji.skin_variations = some svs) :
    (genSkinVariations emoji).length = svs.length ∧
    ∀ i (hi : i < svs.length),
      ∃ hj : i < (genSkinVariations emoji).length,
        ((genSkinVariations emoji).get ⟨i, hj⟩).short_name
            = emoji.short_name ++ "_"
                ++ jsJoin "_" ((jsSplit '-' (svs.get ⟨i, hi⟩).1).map skinCodes) ∧
        ((genSkinVariations emoji).get ⟨i, hj⟩).short_names
            = emoji.short_names.map (fun aliasName => aliasName ++ "_"
                ++ jsJoin "_" ((jsSplit '-' (svs.get ⟨i, hi⟩).1).map skinCodes)) ∧
        ((genSkinVariations emoji).get ⟨i, hj⟩).name
            = emoji.name ++ ": "
                ++ jsJoin ", " ((jsSplit '-' (svs.get ⟨i, hi⟩).1).map skinNames) ∧
        ((genSkinVariations emoji).get ⟨i, hj⟩).category = emoji.category := by
  refine ⟨by simp [genSkinVariations, h], fun i hi => ?_⟩
  have hj : i < (genSkinVariations emoji).length := by simp [genSkinVariations, h, hi]
  refine ⟨hj, ?_, ?_, ?_, ?_⟩
  all_goals simp [genSkinVariations, h, List.getElem_map]

/-- A concrete record with one skin variation. -/
def sampleSkinBase : Emoji :=
  { sampleB with
    skin_variations := some [("1F3FB",
      { unified := "1F44B-1F3FB"
        image := "1f44b-1f3fb.png"
        sheet_x := some 14
        sheet_y := some 25 })] }

theorem skin_expansion_complete_witness :
    (genSkinVariations sampleSkinBase).length = 1 :=
  (skin_expansion_complete sampleSkinBase _ rfl).1

/-! ### C4: alias augmentation -/

/-- C4: alias augmentation maps over the expanded list (base records and
skin variants alike, since it runs after skin expansion); a record whose
short name is a key of the compatibility table gets exactly the table's
extra aliases appended, and a record whose short name is not a key is left
unchanged. -/
theorem alias_augmentation (excludedEmoji : List String) (jsonData : List Emoji)
    (tbl : List (String × List String)) :
    fullEmojiAugmented excludedEmoji jsonData tbl
        = (fullEmojiExpanded excludedEmoji jsonData).map (augmentShortnames tbl) ∧
    (∀ (e : Emoji) (extra : List String), jsLookup tbl e.short_name = some extra →
        augmentShortnames tbl e = { e with short_names := e.short_names ++ extra }) ∧
    (∀ e : Emoji, jsLookup tbl e.short_name = none → augmentShortnames tbl e = e) := by
  refine ⟨rfl, fun e extra h => ?_, fun e h => ?_⟩
  · simp [augmentShortnames, h]
  · simp [augmentShortnames, h]

theorem alias_augmentation_witness :
    augmentShortnames [("wave", ["hello"])] sampleB
      = { sampleB with short_names := sampleB.short_names ++ ["hello"] } :=
  (alias_augmentation [] [] [("wave", ["hello"])]).2.1 sampleB ["hello"] (by decide)

/-! ### C6: the alias-to-index map points back at its record -/

/-- C6: every `[alias, i]` pair pushed onto `emojiIndicesByAlias` satisfies
that the record at position `i` of the sorted list carries `alias` among its
short names — including skin-suffixed and augmented aliases, since the pairs
are generated from the sorted post-augmentation list itself. -/
theorem alias_index_points_back (excludedEmoji : List String) (jsonData : List Emoji)
    (tbl : List (String × List String)) (a : String) (i : Nat)
    (h : (a, i) ∈ emojiIndicesByAlias excludedEmoji jsonData tbl) :
    ∃ hi : i < (fullEmojiSorted excludedEmoji jsonData tbl).length,
      a ∈ ((fullEmojiSorted excludedEmoji jsonData tbl).get ⟨i, hi⟩).short_names := by
  rw [emojiIndicesByAlias, List.mem_flatMap] at h
  obtain ⟨⟨j, e⟩, hje, hmem⟩ := h
  rw [List.mem_map] at hmem
  obtain ⟨al, hal, heq⟩ := hmem
  obtain ⟨rfl, rfl⟩ := Prod.mk.injEq .. ▸ heq
  obtain ⟨hlen, hget⟩ := List.mem_enum hje
  refine ⟨hlen, ?_⟩
  rw [List.get_eq_getElem, ← hget]
  exact hal

theorem alias_index_points_back_witness :
    ∃ hi : 0 < (fullEmojiSorted [] [sampleB] []).length,
      "hand" ∈ ((fullEmojiSorted [] [sampleB] []).get ⟨0, hi⟩).short_names :=
  alias_index_points_back [] [sampleB] [] "hand" 0 (by decide)

/-! ### C7: the category name ordering -/

/-- C7 counterexample: with a category table whose only key is `Component`,
the generated ordering is `[recent, custom]`, not
`recent :: (keys normalized) :: custom` as the claim states — the script
filters the key `Component` out before normalizing. -/
theorem category_names_component_cex :
    categoryNames ["Component"]
      ≠ "recent" :: (["Component"].map convertCategory ++ ["custom"]) := by decide

/-- C7 (amended): the ordering is `recent`, then every category key except
`Component`, in table order, each normalized by `convertCategory`
(lowercase, first ` & ` replaced by `-`), then `custom`. -/
theorem category_names_spec (categoryKeys : List String) :
    categoryNames categoryKeys
      = "recent"
          :: ((categoryKeys.filter (fun k => k != "Component")).map convertCategory
            ++ ["custom"]) ∧
    convertCategory "Smileys & Emotion" = "smileys-emotion" ∧
    convertCategory "Component" = "component" :=
  ⟨rfl, by decide, by decide⟩

/-! ### C8: exclusion-list file handling -/

/-- C8: a supplied exclusion-list path that cannot be read makes the run
fail before anything is generated, while an absent path yields a successful
run with an empty exclusion list, under which the filter keeps every
record. -/
theorem exclusion_file_handling (p : String) (fs : String → Option String)
    (jsonData : List Emoji) (tbl : List (String × List String)) (categoryKeys : List String) :
    (fs p = none →
      runPipeline (some p) fs jsonData tbl categoryKeys
        = Except.error ("ENOENT: no such file or directory, open " ++ p)) ∧
    runPipeline none fs jsonData tbl categoryKeys
        = Except.ok (mkOutputs [] jsonData tbl categoryKeys) ∧
    filteredEmojiJson [] jsonData = jsonData := by
  refine ⟨fun h => ?_, rfl, ?_⟩
  · simp [runPipeline, readExcludedEmoji, h]
  · simp [filteredEmojiJson]

theorem exclusion_file_handling_witness :
    runPipeline (some "./excluded-emoji.txt") (fun _ => none) [sampleA] [] []
      = Except.error ("ENOENT: no such file or directory, open " ++ "./excluded-emoji.txt") :=
  (exclusion_file_handling "./excluded-emoji.txt" (fun _ => none) [sampleA] [] []).1 rfl

/-! ### C9: determinism -/

/-- C9: the pipeline is a pure function of the exclusion list, the dataset,
the compatibility table and the category table: runs on equal inputs
produce equal trimmed-JSON content, equal Go-map content, and equal
artifacts altogether. -/
theorem pipeline_deterministic (e1 e2 : List String) (d1 d2 : List Emoji)
    (t1 t2 : List (String × List String)) (k1 k2 : List String)
    (he : e1 = e2) (hd : d1 = d2) (ht : t1 = t2) (hk : k1 = k2) :
    trimmedDownEmojis e1 d1 t1 = trimmedDownEmojis e2 d2 t2 ∧
    goMapString e1 d1 t1 = goMapString e2 d2 t2 ∧
    mkOutputs e1 d1 t1 k1 = mkOutputs e2 d2 t2 k2 := by
  subst he
  subst hd
  subst ht
  subst hk
  exact ⟨rfl, rfl, rfl⟩

theorem pipeline_deterministic_witness :
    goMapString ["grinning"] [sampleA, sampleB] []
      = goMapString ["grinning"] [sampleA, sampleB] [] :=
  (pipeline_deterministic ["grinning"] ["grinning"] [sampleA, sampleB] [sampleA, sampleB]
    [] [] [] [] rfl rfl rfl rfl).2.1

/-! ### C10: image truncation, fileName, and the keys of the derived tables -/

theorem charSplit_headD (c : Char) (l : List Char) :
    (charSplit c l).headD [] = l.takeWhile (fun x => ! (x == c)) := by
  induction l with
  | nil => rfl
  | cons x xs ih =>
    by_cases hx : x = c
    · subst hx
      simp [charSplit, List.takeWhile_cons]
    · cases h : charSplit c xs with
      | nil =>
        rw [h] at ih
        simp only [List.headD_nil] at ih
        simp only [charSplit, if_neg hx, h, List.headD_cons, List.takeWhile_cons]
        simp [hx, ← ih]
      | cons hd tl =>
        rw [h] at ih
        simp only [List.headD_cons] at ih
        simp only [charSplit, if_neg hx, h, List.headD_cons, List.takeWhile_cons]
        simp [hx, ← ih]

/-- `filename` truncates the image name at its first dot. -/
theorem filename_eq_takeWhile (e : Emoji) :
    filename e = String.mk (e.image.toList.takeWhile (fun x => ! (x == '.'))) := by
  rw [filename, charSplit_headD]

theorem mapSet_mem (m : List (String × String)) (k v : String) (kv : String × String)
    (h : kv ∈ mapSet m k v) : kv = (k, v) ∨ kv ∈ m := by
  unfold mapSet at h
  split at h
  · rw [List.mem_map] at h
    obtain ⟨p, hp, he⟩ := h
    by_cases hpk : p.1 == k
    · rw [if_pos hpk] at he
      exact Or.inl he.symm
    · rw [if_neg hpk] at he
      exact Or.inr (he ▸ hp)
  · rw [List.mem_append] at h
    rcases h with h | h
    · exact Or.inr h
    · simp only [List.mem_singleton] at h
      exact Or.inl h

theorem foldPositions_invariant (P : String × String → Prop) :
    ∀ (l : List Emoji) (acc : List (String × String)),
      (∀ p ∈ acc, P p) →
      (∀ e ∈ l, convertCategory e.category ≠ "custom" → P (filename e, positionString e)) →
      ∀ p ∈ l.foldl
        (fun m e =>
          if convertCategory e.category == "custom" then m
          else mapSet m (filename e) (positionString e)) acc, P p
  | [], acc, hacc, _, p, hp => hacc p hp
  | z :: zs, acc, hacc, hl, p, hp => by
    rw [List.foldl_cons] at hp
    refine foldPositions_invariant P zs _ (fun q hq => ?_)
      (fun e he hne => hl e (List.mem_cons_of_mem z he) hne) p hp
    split at hq
    · exact hacc q hq
    case isFalse hnc =>
      rcases mapSet_mem acc (filename z) (positionString z) q hq with rfl | hq
      · exact hl z (List.mem_cons_self z zs) (by simpa using hnc)
      · exact hacc q hq

theorem buildFilePositions_sources (l : List Emoji) (kv : String × String)
    (h : kv ∈ buildFilePositions l) :
    ∃ e ∈ l, convertCategory e.category ≠ "custom"
      ∧ kv = (filename e, positionString e) := by
  refine foldPositions_invariant
    (fun p => ∃ e ∈ l, convertCategory e.category ≠ "custom"
      ∧ p = (filename e, positionString e))
    l [] (by simp) (fun e he hne => ⟨e, he, hne, rfl⟩) kv h

/-- C10: in every emitted trimmed record, `image` is the record's original
image filename truncated at its first dot and the added `fileName` field is
the original filename with extension; `fileName` survives trimming; the
Go-table entries and the stylesheet position keys both use the truncated
name. -/
theorem image_fileName_fields (excludedEmoji : List String) (jsonData : List Emoji)
    (tbl : List (String × List String)) :
    (∀ e ∈ fullEmojiSorted excludedEmoji jsonData tbl,
        (trimPropertiesFromEmoji (applyIndexMutations e)).image
            = String.mk (e.image.toList.takeWhile (fun x => ! (x == '.'))) ∧
        (trimPropertiesFromEmoji (applyIndexMutations e)).fileName = some e.image) ∧
    (∀ e : Emoji, (trimPropertiesFromEmoji e).fileName = e.fileName) ∧
    trimmedDownEmojis excludedEmoji jsonData tbl
        = (fullEmojiSorted excludedEmoji jsonData tbl).map
            (fun e => trimPropertiesFromEmoji (applyIndexMutations e)) ∧
    emojiImagesByAlias excludedEmoji jsonData tbl
        = (fullEmojiSorted excludedEmoji jsonData tbl).flatMap
            (fun e => e.short_names.map (fun aliasName =>
              quoteStr aliasName ++ ": " ++ quoteStr (filename e))) ∧
    (∀ kv ∈ emojiFilePositions excludedEmoji jsonData tbl,
        ∃ e ∈ fullEmojiSorted excludedEmoji jsonData tbl, kv.1 = filename e) := by
  refine ⟨fun e _ => ⟨?_, ?_⟩, fun e => rfl, ?_, rfl, fun kv hkv => ?_⟩
  · rw [← filename_eq_takeWhile]
    rfl
  · rfl
  · rw [trimmedDownEmojis, finalEmojis, List.map_map]
    rfl
  · obtain ⟨e, he, _, hkve⟩ := buildFilePositions_sources _ kv hkv
    exact ⟨e, he, by rw [hkve]⟩

theorem image_fileName_fields_witness :
    (trimPropertiesFromEmoji (applyIndexMutations sampleA)).image = "1f600" ∧
    (trimPropertiesFromEmoji (applyIndexMutations sampleA)).fileName = some "1f600.png" := by
  have h := (image_fileName_fields [] [sampleA] []).1 sampleA (by decide)
  exact ⟨by rw [h.1]; decide, h.2⟩

/-! ### C5: sprite positions -/

theorem mapSet_fresh (m : List (String × String)) (k v : String)
    (h : ∀ p ∈ m, p.1 ≠ k) : mapSet m k v = m ++ [(k, v)] := by
  have hany : m.any (fun p => p.1 == k) = false := by
    rw [List.any_eq_false]
    intro p hp
    simpa using h p hp
  simp [mapSet, hany]

theorem mapGet_cons (p : String × String) (ps : List (String × String)) (k : String) :
    mapGet (p :: ps) k = if (p.1 == k) = true then some p.2 else mapGet ps k := by
  rw [mapGet, List.find?_cons]
  by_cases h : (p.1 == k) = true
  · simp [h]
  · have hb : (p.1 == k) = false := by simpa using h
    simp [hb, mapGet]

theorem mapGet_of_mem (m : List (String × String)) (k v : String)
    (hnd : (m.map Prod.fst).Nodup) (h : (k, v) ∈ m) : mapGet m k = some v := by
  induction m with
  | nil => simp at h
  | cons p ps ih =>
    rw [List.map_cons, List.nodup_cons] at hnd
    rw [mapGet_cons]
    rcases List.mem_cons.mp h with hp | hp
    · rw [← hp]
      simp
    · have hpk : ¬ (p.1 == k) = true := by
        simp only [beq_iff_eq]
        intro he
        exact hnd.1 (he ▸ List.mem_map_of_mem Prod.fst hp)
      rw [if_neg hpk]
      exact ih hnd.2 hp

theorem mapGet_of_not_mem (m : List (String × String)) (k : String)
    (h : ∀ p ∈ m, p.1 ≠ k) : mapGet m k = none := by
  induction m with
  | nil => rfl
  | cons p ps ih =>
    have hp : ¬ (p.1 == k) = true := by simpa using h p (List.mem_cons_self p ps)
    rw [mapGet_cons, if_neg hp]
    exact ih (fun q hq => h q (List.mem_cons_of_mem p hq))

theorem buildFilePositions_go :
    ∀ (l : List Emoji) (acc : List (String × String)),
      (acc.map Prod.fst ++ l.map filename).Nodup →
      l.foldl
        (fun m e =>
          if convertCategory e.category == "custom" then m
          else mapSet m (filename e) (positionString e)) acc
        = acc ++ (l.filter
            (fun e => ! (convertCategory e.category == "custom"))).map
              (fun e => (filename e, positionString e))
  | [], acc, _ => by simp
  | z :: zs, acc, hnd => by
    rw [List.foldl_cons]
    by_cases hz : (convertCategory z.category == "custom") = true
    · rw [if_pos hz]
      have hnd' : (acc.map Prod.fst ++ zs.map filename).Nodup := by
        refine List.Nodup.sublist ?_ hnd
        exact List.Sublist.append (List.Sublist.refl _)
          (List.sublist_cons_self (filename z) (zs.map filename))
      rw [buildFilePositions_go zs acc hnd', List.filter_cons]
      simp [hz]
    · rw [if_neg hz]
      have hfz : ∀ p ∈ acc, p.1 ≠ filename z := by
        intro p hp he
        rw [List.map_cons] at hnd
        have hdisj := List.disjoint_of_nodup_append hnd
        exact hdisj (List.mem_map_of_mem Prod.fst hp)
          (by rw [he]; exact List.mem_cons_self _ _)
      rw [mapSet_fresh acc (filename z) (positionString z) hfz]
      have hnd' :
          ((acc ++ [(filename z, positionString z)]).map Prod.fst ++ zs.map filename).Nodup := by
        rw [List.map_append]
        simpa [List.append_assoc] using hnd
      rw [buildFilePositions_go zs _ hnd', List.filter_cons]
      have hz' : (! (convertCategory z.category == "custom")) = true := by simpa using hz
      simp [hz']

theorem emojiFilePositions_eq (excludedEmoji : List String) (jsonData : List Emoji)
    (tbl : List (String × List String))
    (hnd : ((fullEmojiSorted excludedEmoji jsonData tbl).map filename).Nodup) :
    emojiFilePositions excludedEmoji jsonData tbl
      = ((fullEmojiSorted excludedEmoji jsonData tbl).filter
          (fun e => ! (convertCategory e.category == "custom"))).map
            (fun e => (filename e, positionString e)) := by
  have h := buildFilePositions_go (fullEmojiSorted excludedEmoji jsonData tbl) []
    (by simpa using hnd)
  simpa [emojiFilePositions, buildFilePositions] using h

/-- C5: under the data-model invariant that image filenames are unique,
every record of the sorted list whose normalized category is not `custom`
gets exactly one sprite-position entry, keyed by its truncated image
filename and valued
`-(sheet_x * EMOJI_SIZE_PADDED)px -(sheet_y * EMOJI_SIZE_PADDED)px;` with
`EMOJI_SIZE_PADDED = 64 + 2`; the record in category `custom` gets no
entry. -/
theorem sprite_positions (excludedEmoji : List String) (jsonData : List Emoji)
    (tbl : List (String × List String))
    (hnd : ((fullEmojiSorted excludedEmoji jsonData tbl).map filename).Nodup) :
    (∀ e ∈ fullEmojiSorted excludedEmoji jsonData tbl,
        convertCategory e.category ≠ "custom" →
          mapGet (emojiFilePositions excludedEmoji jsonData tbl) (filename e)
            = some (positionString e)) ∧
    (∀ e ∈ fullEmojiSorted excludedEmoji jsonData tbl,
        convertCategory e.category = "custom" →
          mapGet (emojiFilePositions excludedEmoji jsonData tbl) (filename e) = none) ∧
    mapGet (emojiFilePositions excludedEmoji jsonData tbl) (filename mattermostEmoji)
        = none ∧
    (∀ (e : Emoji) (x y : Nat), e.sheet_x = some x → e.sheet_y = some y →
        positionString e
          = "-" ++ toString (x * EMOJI_SIZE_PADDED) ++ "px -"
              ++ toString (y * EMOJI_SIZE_PADDED) ++ "px;") ∧
    EMOJI_SIZE_PADDED = EMOJI_SIZE + 2 := by
  have heq := emojiFilePositions_eq excludedEmoji jsonData tbl hnd
  have hcustomGet :
      ∀ e ∈ fullEmojiSorted excludedEmoji jsonData tbl,
        convertCategory e.category = "custom" →
          mapGet (emojiFilePositions excludedEmoji jsonData tbl) (filename e) = none := by
    intro e he hc
    rw [heq]
    refine mapGet_of_not_mem _ _ ?_
    intro p hp hke
    rw [List.mem_map] at hp
    obtain ⟨ev, hev, rfl⟩ := hp
    rw [List.mem_filter] at hev
    have hne : convertCategory ev.category ≠ "custom" := by simpa using hev.2
    have : ev = e := List.inj_on_of_nodup_map hnd hev.1 he hke
    exact hne (this ▸ hc)
  have hmm : mattermostEmoji ∈ fullEmojiSorted excludedEmoji jsonData tbl := by
    rw [fullEmojiSorted, jsStableSort_mem, fullEmojiWithCustom, List.mem_append]
    exact Or.inr (List.mem_singleton.mpr rfl)
  refine ⟨fun e he hne => ?_, hcustomGet,
    hcustomGet mattermostEmoji hmm (by decide), fun e x y hx hy => ?_, rfl⟩
  · rw [heq]
    refine mapGet_of_mem _ _ _ ?_ ?_
    · rw [List.map_map]
      refine List.Nodup.sublist ?_ hnd
      exact List.Sublist.map filename (List.filter_sublist _)
    · refine List.mem_map_of_mem _ (List.mem_filter.mpr ⟨he, ?_⟩)
      simpa using hne
  · simp [positionString, timesPadded, hx, hy]

theorem sprite_positions_witness :
    mapGet (emojiFilePositions [] [sampleB] []) (filename sampleB)
        = some (positionString sampleB) ∧
    positionString sampleB = "-198px -0px;" :=
  ⟨(sprite_positions [] [sampleB] [] (by decide)).1 sampleB (by decide) (by decide),
    by decide⟩

end EmojiGen
